import Mathlib

/-!
Shallow embedding of the cctvscan discovery-and-assessment pipeline
(github.com/postfix/cctvscan), and proofs about it.

Go strings are modelled as Lean `String`; the byte-level operations of the
Go standard library (`strings.Contains`, `strings.HasPrefix`,
`strings.ToLower`, `strings.TrimSpace`, slicing `s[n:]`) are modelled as
operations on the underlying character list, which agrees with the byte
view on the ASCII inputs the scanner handles.

Network and file-system effects are modelled by explicit oracle
parameters: an HTTP request becomes a function from URL (and optional
credential) to an optional response, the two port-scan engines become
functions from targets and port specification to an `Except`-wrapped
host→ports map, and so on.  Each embedded function is translated
clause-by-clause from the Go source named in its doc comment.
-/

/-! ### Go string primitives (ASCII semantics) -/

/-- ASCII lower-casing of one character, as `strings.ToLower` acts on the
ASCII subset. -/
def asciiLower (c : Char) : Char :=
  if 'A' ≤ c ∧ c ≤ 'Z' then Char.ofNat (c.toNat + 32) else c

/-- `strings.ToLower` on ASCII strings. -/
def goToLower (s : String) : String := ⟨s.data.map asciiLower⟩

/-- `strings.HasPrefix s pre`. -/
def goHasPrefix (s pre : String) : Bool := pre.data.isPrefixOf s.data

/-- Substring test on character lists: some suffix of `s` starts with
`sub`. -/
def listContains : List Char → List Char → Bool
  | s, sub =>
    if sub.isPrefixOf s then true
    else
      match s with
      | [] => false
      | _ :: t => listContains t sub

/-- `strings.Contains s sub`. -/
def goContains (s sub : String) : Bool := listContains s.data sub.data

/-- The white-space class used by `strings.TrimSpace` (ASCII part). -/
def isGoSpace (c : Char) : Bool :=
  c = ' ' ∨ c = '\t' ∨ c = '\n' ∨ c = '\x0b' ∨ c = '\x0c' ∨ c = '\r'

/-- `strings.TrimSpace` on ASCII strings. -/
def goTrimSpace (s : String) : String :=
  ⟨((s.data.dropWhile isGoSpace).reverse.dropWhile isGoSpace).reverse⟩

/-- The Go slice `s[n:]` on ASCII strings. -/
def goDrop (s : String) (n : Nat) : String := ⟨s.data.drop n⟩

/-! ### Package `util` (src/unnamed/part_000)

`Uniq` removes duplicates from a string slice preserving first
occurrences; the Go loop's `m map[string]struct{}` of already-seen
elements is the `seen` accumulator. -/

/-- The loop body of `util.Uniq`: `seen` is the set of elements already
appended to `out`. -/
def uniqLoop (seen : List String) : List String → List String
  | [] => []
  | s :: rest =>
    if s ∈ seen then uniqLoop seen rest
    else s :: uniqLoop (s :: seen) rest

/-- `util.Uniq` (part_000 lines 22–29). -/
def Uniq (xs : List String) : List String := uniqLoop [] xs

/-- `util.isSorted` (part_000 lines 58–65): ascending (non-strict) order,
checked pairwise. -/
def isSorted : List Int → Bool
  | [] => true
  | [_] => true
  | a :: b :: rest => if b < a then false else isSorted (b :: rest)

/-- The binary-search loop of `util.PortIn` (part_000 lines 37–49), with
the Go `left`/`right` indices as integers (`right` may reach `-1`). -/
def searchLoop (ports : List Int) (p : Int) (left right : Int) : Bool :=
  if h : left ≤ right then
    let mid := left + (right - left) / 2
    let v := ports.getD mid.toNat 0
    if v = p then true
    else if v < p then searchLoop ports p (mid + 1) right
    else searchLoop ports p left (mid - 1)
  else false
termination_by (right + 1 - left).toNat
decreasing_by
  · have h2 : 0 ≤ (right - left) / 2 := Int.ediv_nonneg (by omega) (by norm_num)
    have h3 : (right - left) / 2 ≤ right - left := Int.ediv_le_self _ (by omega)
    simp only [mid] at *
    omega
  · have h2 : 0 ≤ (right - left) / 2 := Int.ediv_nonneg (by omega) (by norm_num)
    have h3 : (right - left) / 2 ≤ right - left := Int.ediv_le_self _ (by omega)
    simp only [mid] at *
    omega

/-- `util.PortIn` (part_000 lines 34–55): binary search when the slice is
sorted and longer than 10 entries, linear scan otherwise. -/
def PortIn (ports : List Int) (p : Int) : Bool :=
  if 10 < ports.length ∧ isSorted ports = true then
    searchLoop ports p 0 ((ports.length : Int) - 1)
  else
    ports.contains p

/-! ### Host→ports maps

A Go `map[string][]int` is modelled as an association list; keys are
unique in any map produced by Go, and the proofs that need that
invariant take it as a `(keys m).Nodup` hypothesis.  Iteration order of a Go map is
unspecified; the list order stands in for one arbitrary such order. -/

/-- A discovery/verification result map `host → open ports`. -/
abbrev PortMap := List (String × List Int)

/-- Assoc-list lookup, used for every Go map read in the embedding. -/
def assocLookup {β : Type} : List (String × β) → String → Option β
  | [], _ => none
  | e :: rest, k => if e.1 = k then some e.2 else assocLookup rest k

/-- The port list a `PortMap` holds for a host (empty if absent). -/
def lookupPorts (m : PortMap) (h : String) : List Int :=
  (assocLookup m h).getD []

/-- The hosts of a `PortMap` (the `for host := range discoveredPorts`
loop of `VerifyPorts`). -/
def keys (m : PortMap) : List String := m.map (·.1)

/-- The union of all discovered ports (the `allPorts` set and `portList`
of `VerifyPorts`, part_006 lines 194–206). -/
def unionPorts (m : PortMap) : List Int := ((m.map (·.2)).join).dedup

/-! ### Package `verify` (src/internal/verify/verify.go)

The dial attempts of `TCPVerifier.try` (bounded retries, each a TCP
connect with timeout) are abstracted as the oracle `tryO : address →
Bool`, true when some attempt connects. -/

/-- `net.JoinHostPort` for a plain host. -/
def joinHostPort (host : String) (p : Int) : String :=
  host ++ ":" ++ toString p

/-- `TCPVerifier.Verify` (verify.go lines 19–27): keep the ports whose
re-probe connected, sorted ascending (`sort.Ints`). -/
def TCPVerify (tryO : String → Bool) (host : String) (ports : List Int) : List Int :=
  List.insertionSort (· ≤ ·) (ports.filter (fun p => tryO (joinHostPort host p)))

/-- `TCPVerifier.VerifyMap` (verify.go lines 29–35): hosts whose verified
list is empty are dropped. -/
def TCPVerifyMap (tryO : String → Bool) (m : PortMap) : PortMap :=
  m.foldr (fun e acc =>
    let res := TCPVerify tryO e.1 e.2
    if res.length > 0 then (e.1, res) :: acc else acc) []

/-! ### Package `portscan` (src/unnamed/part_006 and part_008) -/

/-- One invocation of an external scan engine on a target batch and
a port specification; `Except.error` models the engine failing to start
or run (`runner.NewRunner` / `RunEnumeration` errors). -/
abbrev ScanOracle := List String → List Int → Except String PortMap

/-- The discovery-engine boundary contract (`open ports only` over the
requested targets and ports): every reported pair was asked about. -/
def ScanOracleValid (scan : ScanOracle) : Prop :=
  ∀ ts ps m, scan ts ps = Except.ok m →
    ∀ h p, p ∈ lookupPorts m h → h ∈ ts ∧ p ∈ ps

/-- `NaabuScanner.VerifyPorts` (part_006 lines 182–222): re-scans the
keys of the discovery map against the union of all discovered ports,
at halved rate (the rate does not enter the value model). -/
def VerifyPorts (scan : ScanOracle) (discovered : PortMap) : Except String PortMap :=
  if discovered.isEmpty then Except.ok discovered
  else scan (keys discovered) (unionPorts discovered)

/-- The pure localhost test of `hasLocalhostTargets`
(part_008 line 147). -/
def isLocalhostAddr (t : String) : Bool :=
  t = "127.0.0.1" || t = "localhost" || goHasPrefix t "127."

/-- The package-level `localhostCache` of part_008, threaded
explicitly. -/
abbrev LocalCache := List (String × Bool)

/-- A cache state reachable by the program: every stored classification
is the pure one. -/
def CacheWF (cache : LocalCache) : Prop :=
  ∀ t b, assocLookup cache t = some b → b = isLocalhostAddr t

/-- `HybridScanner.hasLocalhostTargets` (part_008 lines 133–158):
consults the cache, classifies and stores on a miss, and stops at the
first local target.  Returns the decision and the updated cache. -/
def hasLocalhostTargets (cache : LocalCache) : List String → Bool × LocalCache
  | [] => (false, cache)
  | t :: rest =>
    match assocLookup cache t with
    | some isLocal =>
      if isLocal then (true, cache) else hasLocalhostTargets cache rest
    | none =>
      let isLocal := isLocalhostAddr t
      let cache' := (t, isLocal) :: cache
      if isLocal then (true, cache') else hasLocalhostTargets cache' rest

/-- The discovery phase of `HybridScanner.Scan` (part_008 lines 45–92):
a single whole-batch engine choice — naabu (connect scan) when any
target is local, masscan otherwise.  `naabuDisc` and `masscanDisc` are
the two engines under the scanner's configured port specification. -/
def discoveryPhase (naabuDisc masscanDisc : List String → Except String PortMap)
    (cache : LocalCache) (targets : List String) : Except String PortMap :=
  if (hasLocalhostTargets cache targets).1 then naabuDisc targets
  else masscanDisc targets

/-- `HybridScanner.Scan` (part_008 lines 40–130).  `naabuVerify` is the
naabu engine as re-invoked by `VerifyPorts` with an explicit port list;
a structural verification error falls back to the discovery map.  The
`fmt.Errorf` wrapping of a discovery error's message is not modelled —
the error is propagated as-is. -/
def HybridScan (naabuDisc masscanDisc : List String → Except String PortMap)
    (naabuVerify : ScanOracle) (cache : LocalCache) (targets : List String) :
    Except String PortMap :=
  if targets.isEmpty then Except.ok []
  else
    match discoveryPhase naabuDisc masscanDisc cache targets with
    | Except.error e => Except.error e
    | Except.ok discovered =>
      if discovered.isEmpty then Except.ok discovered
      else
        match VerifyPorts naabuVerify discovered with
        | Except.error _ => Except.ok discovered
        | Except.ok verified => Except.ok verified

/-! ### Package `credbrute` (src/unnamed/part_009 and
src/internal/credbrute/basic.go)

HTTP is abstracted by two oracles: `HTTPOracle` for the unauthenticated
probe `GET url`, `AuthOracle` for `GET url` with a `Basic` credential;
`none` models a transport error. -/

/-- The part of an HTTP response the credential tester inspects. -/
structure HTTPResp where
  status : Nat
  wwwAuth : String
deriving DecidableEq

abbrev HTTPOracle := String → Option HTTPResp

abbrev AuthOracle := String → String → Option HTTPResp

/-- `requiresAuth` (part_009 lines 142–157). -/
def requiresAuth (http : HTTPOracle) (url : String) : Bool :=
  match http url with
  | none => false
  | some resp => resp.wwwAuth ≠ "" || resp.status = 401 || resp.status = 403

/-- `strings.SplitN s (String.singleton sep) 2`. -/
def splitN2 (s : String) (sep : Char) : List String :=
  if s.data.contains sep then
    [⟨s.data.takeWhile (· ≠ sep)⟩, ⟨(s.data.dropWhile (· ≠ sep)).tail⟩]
  else [s]

/-- `testCredential` (part_009 lines 160–181): no request is issued for
a credential that does not parse as `user:pass`. -/
def testCredential (httpAuth : AuthOracle) (url cred : String) : Bool :=
  if (splitN2 cred ':').length ≠ 2 then false
  else
    match httpAuth url cred with
    | none => false
    | some resp => resp.status = 200

/-- The credential-file filtering shared by `loadCredentials`
(part_009 lines 107–139) and `TryDefaultBasic` (basic.go lines 30–36):
trim each line, drop blanks and `#` comments.  The file is an oracle:
`none` models `os.Open` failing.  The per-path memoization cache of
part_009 returns the same loaded lines, so it does not change the
value and is not modelled separately. -/
def loadCredentials (file : Option (List String)) : Option (List String) :=
  match file with
  | none => none
  | some ls =>
    some ((ls.map goTrimSpace).filter (fun l => l ≠ "" ∧ ¬ goHasPrefix l "#"))

/-- The credential trials the worker goroutine for `url` issues
(part_009 lines 40–69): none unless the unauthenticated preflight
demanded auth; when it did, one trial per parseable credential. -/
def optimizedWorkerTrials (http : HTTPOracle) (creds : List String) (url : String) :
    List String :=
  if requiresAuth http url then creds.filter (fun c => (splitN2 c ':').length = 2)
  else []

/-- Whether a worker of `OptimizedBruteForce` can deliver `c` into
`resultChan`: some login URL passed the preflight and `c` tests 200
on it. -/
def deliverable (http : HTTPOracle) (httpAuth : AuthOracle)
    (loginURLs creds : List String) (c : String) : Bool :=
  creds.contains c &&
    loginURLs.any (fun u => requiresAuth http u && testCredential httpAuth u c)

/-- `OptimizedBruteForce` (part_009 lines 16–98).  The workers
communicate with the final `select` only through `resultChan`, and that
`select` carries a `default` branch, so it reads whatever has been
delivered by the time it executes; `delivered` is that channel content.
The function performs no synchronization between spawning the workers
and executing the select, so `delivered = none` is a reachable schedule
whenever the select runs before any worker finishes its network
round-trips — nothing in the code prevents that. -/
def OptimizedBruteForce (http : HTTPOracle) (httpAuth : AuthOracle)
    (credFile : Option (List String)) (loginURLs : List String)
    (delivered : Option String) : String :=
  match loadCredentials credFile with
  | none => ""
  | some creds =>
    if creds.isEmpty then ""
    else
      match delivered with
      | some c => c
      | none => ""

/-- A channel content reachable by some schedule: empty, or a value some
worker can deliver. -/
def ScheduleOK (http : HTTPOracle) (httpAuth : AuthOracle)
    (loginURLs creds : List String) : Option String → Prop
  | none => True
  | some c => deliverable http httpAuth loginURLs creds c = true

/-- The credential loop of `TryDefaultBasic` for one URL (basic.go
lines 49–60): returns the first credential answering 200 together with
the `(url, credential)` trial requests actually issued (a request that
errors was still issued). -/
def tryCredsOnURL (httpAuth : AuthOracle) (u : String) :
    List String → Option String × List (String × String)
  | [] => (none, [])
  | c :: rest =>
    if (splitN2 c ':').length ≠ 2 then tryCredsOnURL httpAuth u rest
    else
      match httpAuth u c with
      | none =>
        ((tryCredsOnURL httpAuth u rest).1, (u, c) :: (tryCredsOnURL httpAuth u rest).2)
      | some resp =>
        if resp.status = 200 then (some c, [(u, c)])
        else
          ((tryCredsOnURL httpAuth u rest).1, (u, c) :: (tryCredsOnURL httpAuth u rest).2)

/-- The URL loop of `TryDefaultBasic` (basic.go lines 38–62): preflight
each URL, skip it unless auth was requested, stop at the first
successful credential. -/
def tryURLs (http : HTTPOracle) (httpAuth : AuthOracle) (creds : List String) :
    List String → String × List (String × String)
  | [] => ("", [])
  | u :: rest =>
    match http u with
    | none => tryURLs http httpAuth creds rest
    | some resp =>
      if resp.wwwAuth = "" ∧ resp.status ≠ 401 ∧ resp.status ≠ 403 then
        tryURLs http httpAuth creds rest
      else
        match (tryCredsOnURL httpAuth u creds).1 with
        | some c => (c, (tryCredsOnURL httpAuth u creds).2)
        | none =>
          ((tryURLs http httpAuth creds rest).1,
            (tryCredsOnURL httpAuth u creds).2 ++ (tryURLs http httpAuth creds rest).2)

/-- `TryDefaultBasic` (basic.go lines 16–63), paired with the trace of
credential trials it issues. -/
def TryDefaultBasic (http : HTTPOracle) (httpAuth : AuthOracle)
    (credFile : Option (List String)) (loginURLs : List String) :
    String × List (String × String) :=
  match loadCredentials credFile with
  | none => ("", [])
  | some creds => tryURLs http httpAuth creds loginURLs

/-! ### Package `probe`, RTSP part (src/unnamed/part_004)

The TCP exchange of `ProbeRTSP` with one port is abstracted as
`RTSPOracle`: `none` models a failed dial; otherwise the pair of the
status line returned by the first `ReadString('\n')` and the further
lines the header loop reads.  A read error yields an empty line, which
is what running off the end of the line list models. -/

/-- Presence flag, `Server:` banner and `Public:` banner
(part_004 lines 69–73). -/
structure RTSPInfo where
  Any : Bool
  Server : String
  Public : String
deriving DecidableEq

abbrev RTSPOracle := Int → Option (String × List String)

/-- The header loop of `ProbeRTSP` (part_004 lines 99–110): stop at the
first blank (trimmed) line; the first `Server:`/`Public:` line wins, the
match is case-insensitive, and the value is the trimmed tail of the
original line after the 7-byte prefix. -/
def readRTSPHeaders (srv pub : String) : List String → String × String
  | [] => (srv, pub)
  | l :: rest =>
    let line := goTrimSpace l
    if line = "" then (srv, pub)
    else
      let low := goToLower line
      let srv' := if goHasPrefix low "server:" ∧ srv = "" then goTrimSpace (goDrop line 7) else srv
      let pub' := if goHasPrefix low "public:" ∧ pub = "" then goTrimSpace (goDrop line 7) else pub
      readRTSPHeaders srv' pub' rest

/-- Whether port `p` answers the `OPTIONS` request with a status line
beginning `RTSP/1.0 200` (part_004 line 96). -/
def rtspSuccess (conn : RTSPOracle) (p : Int) : Bool :=
  match conn p with
  | none => false
  | some (status, _) => goHasPrefix status "RTSP/1.0 200"

/-- `ProbeRTSP` (part_004 lines 86–116): try each RTSP port in turn and
stop at the first success (`if info.Any { break }`). -/
def ProbeRTSP (conn : RTSPOracle) : List Int → RTSPInfo
  | [] => ⟨false, "", ""⟩
  | p :: rest =>
    match conn p with
    | none => ProbeRTSP conn rest
    | some (status, lines) =>
      if goHasPrefix status "RTSP/1.0 200" then
        ⟨true, (readRTSPHeaders "" "" lines).1, (readRTSPHeaders "" "" lines).2⟩
      else ProbeRTSP conn rest

/-! ### Package `fingerprint` (src/internal/streams/mjpeg.go after the
separator, and src/unnamed/part_005)

`detectBrand` and its keyword tables carry no regular expressions, so
they embed directly.  The vendor→CVE table `cvedb.ForBrand` is an
external collaborator consumed read-only; it is a function parameter
(`CVEDb`) here. -/

def brandKeysHikvision : List String :=
  ["hikvision", "dvr", "nvr", "hik-connect", "ivms", "web service"]
def brandKeysDahua : List String :=
  ["dahua", "dvr", "nvr", "dss", "smartpss", "dmss"]
def brandKeysAxis : List String :=
  ["axis", "axis communications", "axis camera", "axis mjpg"]
def brandKeysSony : List String :=
  ["sony", "ipela", "snc", "sony network camera"]
def brandKeysBosch : List String :=
  ["bosch", "security systems", "flexidome", "dinion", "autodome"]
def brandKeysSamsung : List String :=
  ["samsung", "samsung techwin", "samsung sds", "hanwha", "wisenet"]
def brandKeysPanasonic : List String :=
  ["panasonic", "network camera", "wv", "bb", "blc"]
def brandKeysVivotek : List String :=
  ["vivotek", "network camera", "ip camera", "fd", "sd"]
def brandKeysGeneric : List String :=
  ["camera", "webcam", "surveillance", "ip camera", "network camera", "dvr", "nvr", "recorder"]

/-- `containsAny` (mjpeg.go lines 195–202). -/
def containsAny (text : String) (keywords : List String) : Bool :=
  keywords.any (fun k => goContains text k)

/-- The matcher table of `detectBrand` (mjpeg.go lines 120–170), in its
fixed priority order; each matcher sees the pre-lowered header, body and
RTSP banner. -/
def brandMatchers : List (String × (String → String → String → Bool)) :=
  [("Hikvision", fun lh lb lr =>
      containsAny lh brandKeysHikvision || containsAny lb brandKeysHikvision ||
        goContains lr "hik"),
   ("Dahua", fun lh lb lr =>
      containsAny lh brandKeysDahua || containsAny lb brandKeysDahua ||
        goContains lr "dahua"),
   ("Axis", fun lh lb lr =>
      containsAny lh brandKeysAxis || containsAny lb brandKeysAxis ||
        goContains lr "axis"),
   ("Sony", fun lh lb lr =>
      containsAny lh brandKeysSony || containsAny lb brandKeysSony ||
        goContains lr "sony"),
   ("Bosch", fun lh lb lr =>
      containsAny lh brandKeysBosch || containsAny lb brandKeysBosch ||
        goContains lr "bosch"),
   ("Samsung", fun lh lb lr =>
      containsAny lh brandKeysSamsung || containsAny lb brandKeysSamsung ||
        goContains lr "samsung"),
   ("Panasonic", fun lh lb lr =>
      containsAny lh brandKeysPanasonic || containsAny lb brandKeysPanasonic ||
        goContains lr "panasonic"),
   ("Vivotek", fun lh lb lr =>
      containsAny lh brandKeysVivotek || containsAny lb brandKeysVivotek ||
        goContains lr "vivotek"),
   ("CP Plus", fun _ lb _ =>
      goContains lb "cp plus" || goContains lb "cpplus" ||
        goContains lb "cp-plus" || goContains lb "cp_plus")]

/-- The `for _, matcher := range brandMatchers` loop (mjpeg.go lines
173–177): the first matching vendor, if any. -/
def firstBrandMatch (lh lb lr : String) : Option String :=
  (brandMatchers.find? (fun e => e.2 lh lb lr)).map (·.1)

/-- `normalizeRtspBrandFromServer` (part_005 lines 199–230): a fixed
rule list over the lowered, trimmed RTSP server banner, then the
generic-RTSP class, then the banner itself verbatim. -/
def normalizeRtspBrandFromServer (srvRaw : String) : String :=
  let s := goTrimSpace srvRaw
  let low := goToLower s
  if goContains low "hipcam" then "Hipcam"
  else if goContains low "tvt" then "TVT"
  else if goContains low "ubnt" || goContains low "ubiquiti" then "Ubiquiti"
  else if goContains low "gstreamer" then "GStreamer"
  else if goContains low "h264dvr" then "H264DVR"
  else if goContains low "rtprtspflyer" then "RtpRtspFlyer"
  else if goContains low "rtsp server" || goContains low "rtsp" then "RTSP"
  else if s ≠ "" then s
  else "RTSP"

/-- `detectBrand` (mjpeg.go lines 113–192): vendor keyword stage in
priority order, then RTSP-banner normalization, then the generic camera
fallback, else empty. -/
def detectBrand (serverHdr body rtspServer : String) : String × String :=
  let lh := goToLower serverHdr
  let lb := goToLower body
  let lr := goToLower rtspServer
  match firstBrandMatch lh lb lr with
  | some name => (name, "")
  | none =>
    if rtspServer ≠ "" ∧
        normalizeRtspBrandFromServer rtspServer ≠ "RTSP" ∧
        normalizeRtspBrandFromServer rtspServer ≠ "" then
      (normalizeRtspBrandFromServer rtspServer, "RTSP server: " ++ rtspServer)
    else if containsAny lh brandKeysGeneric || containsAny lb brandKeysGeneric ||
        containsAny lr brandKeysGeneric then
      ("Unknown cam", "")
    else ("", "")

/-- A `BrandDetectionCache` entry (mjpeg.go lines 74–78). -/
structure BrandResult where
  Brand : String
  Note : String
  CVEs : List String
deriving DecidableEq

/-- The package-level `brandCache`, threaded explicitly. -/
abbrev BrandCache := List (String × BrandResult)

/-- The `cvedb.ForBrand` table (external collaborator, consumed
read-only). -/
abbrev CVEDb := String → List String

/-- `OptimizedDetect` (mjpeg.go lines 85–110): look the normalized key
up, else detect, cache (together with the correlated CVEs) and
return. -/
def OptimizedDetect (forBrand : CVEDb) (cache : BrandCache)
    (serverHdr body rtspServer : String) : (String × String) × BrandCache :=
  let cacheKey := goToLower (serverHdr ++ "|" ++ body ++ "|" ++ rtspServer)
  match assocLookup cache cacheKey with
  | some cached => ((cached.Brand, cached.Note), cache)
  | none =>
    let bn := detectBrand serverHdr body rtspServer
    (bn, (cacheKey, ⟨bn.1, bn.2, forBrand (goToLower bn.1)⟩) :: cache)

/-- `OptimizedCVEsForBrand` (mjpeg.go lines 205–232): scan the cache
values for a brand match, else query the table and cache the answer
under the key `"cve_" ++ lowerBrand`. -/
def OptimizedCVEsForBrand (forBrand : CVEDb) (cache : BrandCache)
    (brand : String) : List String × BrandCache :=
  let lowerBrand := goToLower brand
  match cache.find? (fun e => goToLower e.2.Brand = lowerBrand) with
  | some e => (e.2.CVEs, cache)
  | none =>
    let cves := forBrand lowerBrand
    (cves, ("cve_" ++ lowerBrand, ⟨brand, "", cves⟩) :: cache)

/-! ### Concrete instances used in counterexamples and witnesses -/

/-- An engine obeying the boundary contract that reports port 554 open
on 198.51.100.7 whenever asked about both. -/
def scanExample : ScanOracle := fun ts ps =>
  if ts.contains "198.51.100.7" && ps.contains 554 then
    Except.ok [("198.51.100.7", [554])]
  else Except.ok []

/-- A discovery map: port 80 on one host, port 554 on another. -/
def discoveredExample : PortMap := [("198.51.100.7", [80]), ("203.0.113.5", [554])]

def masscanStub : List String → Except String PortMap :=
  fun _ => Except.ok [("203.0.113.5", [80])]

def naabuDiscStub : List String → Except String PortMap :=
  fun _ => Except.ok [("127.0.0.1", [80])]

def naabuVerifyFailStub : ScanOracle := fun _ _ => Except.error "naabu scan failed"

/-- Every URL answers the unauthenticated probe with a plain 401. -/
def httpChallengeStub : HTTPOracle := fun _ => some ⟨401, ""⟩

/-- `admin:admin` answers 200, any other credential 401. -/
def authAdminStub : AuthOracle := fun _ c =>
  if c = "admin:admin" then some ⟨200, ""⟩ else some ⟨401, ""⟩

/-- Every URL answers the unauthenticated probe with a plain 200 and no
`WWW-Authenticate` header. -/
def httpPlain200Stub : HTTPOracle := fun _ => some ⟨200, ""⟩

/-- Port 554 answers the OPTIONS request with a non-200 status line. -/
def rtspConn404 : RTSPOracle := fun p =>
  if p = 554 then some ("RTSP/1.0 404 Not Found\r\n", []) else none

/-- Port 554 answers 200 with a Server and a Public header. -/
def rtspConn200 : RTSPOracle := fun p =>
  if p = 554 then
    some ("RTSP/1.0 200 OK\r\n",
      ["Server: Hipcam RealServer/V1.0\r\n", "Public: OPTIONS, DESCRIBE, PLAY\r\n", "\r\n"])
  else none

/-! ## Theorems -/

/-! ### C9: `Uniq` is idempotent -/

theorem mem_uniqLoop {a : String} :
    ∀ {seen xs : List String}, a ∈ uniqLoop seen xs → a ∉ seen ∧ a ∈ xs := by
  intro seen xs
  induction xs generalizing seen with
  | nil => simp [uniqLoop]
  | cons s rest ih =>
    simp only [uniqLoop]
    split
    · intro h
      have := ih h
      exact ⟨this.1, List.mem_cons_of_mem _ this.2⟩
    · intro h
      rcases List.mem_cons.mp h with h1 | h2
      · subst h1; exact ⟨by assumption, List.mem_cons_self _ _⟩
      · have := ih h2
        refine ⟨fun hc => this.1 (List.mem_cons_of_mem _ hc), List.mem_cons_of_mem _ this.2⟩

theorem nodup_uniqLoop : ∀ (seen xs : List String), (uniqLoop seen xs).Nodup := by
  intro seen xs
  induction xs generalizing seen with
  | nil => simp [uniqLoop]
  | cons s rest ih =>
    simp only [uniqLoop]
    split
    · exact ih seen
    · refine List.nodup_cons.mpr ⟨fun hc => ?_, ih (s :: seen)⟩
      exact (mem_uniqLoop hc).1 (List.mem_cons_self _ _)

theorem uniqLoop_eq_self : ∀ (seen xs : List String), xs.Nodup →
    (∀ a ∈ xs, a ∉ seen) → uniqLoop seen xs = xs := by
  intro seen xs
  induction xs generalizing seen with
  | nil => intro _ _; rfl
  | cons s rest ih =>
    intro hnd hdis
    have hs : s ∉ seen := hdis s (List.mem_cons_self _ _)
    simp only [uniqLoop, if_neg hs]
    congr 1
    refine ih (s :: seen) (List.nodup_cons.mp hnd).2 ?_
    intro a ha
    have hne : a ≠ s := fun hc => (List.nodup_cons.mp hnd).1 (hc ▸ ha)
    simp only [List.mem_cons]
    push_neg
    exact ⟨hne, hdis a (List.mem_cons_of_mem _ ha)⟩

/-- C9: the deduplication step on discovered URLs/paths is idempotent:
for every list of strings `xs`, `Uniq (Uniq xs) = Uniq xs`. -/
theorem uniq_idempotent (xs : List String) : Uniq (Uniq xs) = Uniq xs := by
  unfold Uniq
  exact uniqLoop_eq_self [] _ (nodup_uniqLoop [] xs) (by simp)

/-! ### C10: the two membership paths of `PortIn` agree -/

theorem isSorted_chain' : ∀ l : List Int, isSorted l = true ↔ l.Chain' (· ≤ ·)
  | [] => by simp [isSorted]
  | [a] => by simp [isSorted]
  | a :: b :: rest => by
    rw [isSorted, List.chain'_cons]
    constructor
    · intro h
      by_cases hba : b < a
      · simp [hba] at h
      · exact ⟨by omega, (isSorted_chain' (b :: rest)).mp (by simpa [hba] using h)⟩
    · rintro ⟨hab, hc⟩
      have : ¬ b < a := by omega
      simp [this]
      exact (isSorted_chain' (b :: rest)).mpr hc

theorem sorted_getD_le (l : List Int) (hs : isSorted l = true) {i j : Nat}
    (hij : i ≤ j) (hj : j < l.length) :
    l.getD i 0 ≤ l.getD j 0 := by
  have hp : l.Pairwise (· ≤ ·) := List.chain'_iff_pairwise.mp ((isSorted_chain' l).mp hs)
  have hi : i < l.length := lt_of_le_of_lt hij hj
  rw [List.getD_eq_getElem l 0 hi, List.getD_eq_getElem l 0 hj]
  rcases Nat.lt_or_eq_of_le hij with h | h
  · have := List.pairwise_iff_get.mp hp ⟨i, hi⟩ ⟨j, hj⟩ h
    simpa using this
  · subst h; exact le_refl _

theorem midBounds {left right : Int} (h : left ≤ right) :
    left ≤ left + (right - left) / 2 ∧ left + (right - left) / 2 ≤ right := by
  have h1 : 0 ≤ (right - left) / 2 := Int.ediv_nonneg (by omega) (by norm_num)
  have h2 : (right - left) / 2 ≤ right - left := Int.ediv_le_self _ (by omega)
  omega

theorem searchLoop_sound (ports : List Int) (p : Int) :
    ∀ left right : Int, 0 ≤ left → right < (ports.length : Int) →
      searchLoop ports p left right = true → p ∈ ports := by
  intro left right
  induction left, right using searchLoop.induct ports p with
  | case1 left right hlr mid v hv =>
    intro hl hr _
    obtain ⟨hm1, hm2⟩ := midBounds hlr
    have hmn : mid.toNat < ports.length := by omega
    have : ports.getD mid.toNat 0 = ports[mid.toNat] := List.getD_eq_getElem _ _ hmn
    rw [List.mem_iff_getElem]
    exact ⟨mid.toNat, hmn, by rw [← this, ← hv]⟩
  | case2 left right hlr mid v hv hvp ih =>
    intro hl hr htrue
    rw [searchLoop, dif_pos hlr] at htrue
    obtain ⟨hm1, hm2⟩ := midBounds hlr
    rw [if_neg hv, if_pos hvp] at htrue
    exact ih (by omega) hr htrue
  | case3 left right hlr mid v hv hvp ih =>
    intro hl hr htrue
    rw [searchLoop, dif_pos hlr] at htrue
    obtain ⟨hm1, hm2⟩ := midBounds hlr
    rw [if_neg hv, if_neg hvp] at htrue
    exact ih hl (by omega) htrue
  | case4 left right hlr =>
    intro _ _ htrue
    rw [searchLoop, dif_neg hlr] at htrue
    exact absurd htrue (by simp)

theorem searchLoop_complete (ports : List Int) (p : Int) (hs : isSorted ports = true) :
    ∀ left right : Int, right < (ports.length : Int) →
      (∃ i : Nat, i < ports.length ∧ left ≤ (i : Int) ∧ (i : Int) ≤ right ∧
        ports.getD i 0 = p) →
      searchLoop ports p left right = true := by
  intro left right
  induction left, right using searchLoop.induct ports p with
  | case1 left right hlr mid v hv =>
    intro _ _
    rw [searchLoop, dif_pos hlr]
    simp only [if_pos hv]
  | case2 left right hlr mid v hv hvp ih =>
    rintro hr ⟨i, hilen, hli, hir, hip⟩
    rw [searchLoop, dif_pos hlr]
    rw [if_neg hv, if_pos hvp]
    obtain ⟨hm1, hm2⟩ := midBounds hlr
    have hmn : mid.toNat < ports.length := by omega
    have hmi : mid < (i : Int) := by
      by_contra hc
      push_neg at hc
      have hle : ports.getD i 0 ≤ ports.getD mid.toNat 0 :=
        sorted_getD_le ports hs (by omega) hmn
      rw [hip] at hle
      omega
    exact ih hr ⟨i, hilen, by omega, hir, hip⟩
  | case3 left right hlr mid v hv hvp ih =>
    rintro hr ⟨i, hilen, hli, hir, hip⟩
    rw [searchLoop, dif_pos hlr]
    rw [if_neg hv, if_neg hvp]
    obtain ⟨hm1, hm2⟩ := midBounds hlr
    have hmn : mid.toNat < ports.length := by omega
    have him : (i : Int) < mid := by
      by_contra hc
      push_neg at hc
      have hle : ports.getD mid.toNat 0 ≤ ports.getD i 0 :=
        sorted_getD_le ports hs (by omega) hilen
      rw [hip] at hle
      omega
    exact ih (by omega) ⟨i, hilen, hli, by omega, hip⟩
  | case4 left right hlr =>
    rintro hr ⟨i, hilen, hli, hir, hip⟩
    exact absurd (hli.trans hir) hlr

theorem searchLoop_eq_contains (ports : List Int) (p : Int) (hs : isSorted ports = true) :
    searchLoop ports p 0 ((ports.length : Int) - 1) = ports.contains p := by
  by_cases hmem : p ∈ ports
  · obtain ⟨i, hilen, hip⟩ := List.mem_iff_getElem.mp hmem
    have h1 : searchLoop ports p 0 ((ports.length : Int) - 1) = true := by
      apply searchLoop_complete ports p hs _ _ (by omega)
      exact ⟨i, hilen, by omega, by omega, by rw [List.getD_eq_getElem _ _ hilen, hip]⟩
    rw [h1]
    exact (List.elem_eq_true_of_mem hmem).symm
  · cases h : searchLoop ports p 0 ((ports.length : Int) - 1) with
    | true =>
      exact absurd (searchLoop_sound ports p 0 _ (by omega) (by omega) h) hmem
    | false =>
      symm
      by_contra hc
      simp only [Bool.not_eq_false] at hc
      exact hmem (List.mem_of_elem_eq_true hc)

/-- C10: `PortIn` decides list membership, and its binary-search branch
agrees with the linear `contains` on every sorted slice — the two
membership paths compute the same predicate. -/
theorem portin_membership (ports : List Int) (p : Int) :
    (PortIn ports p = true ↔ p ∈ ports) ∧
    (isSorted ports = true →
      searchLoop ports p 0 ((ports.length : Int) - 1) = ports.contains p) := by
  constructor
  · unfold PortIn
    split
    · next h =>
      rw [searchLoop_eq_contains ports p h.2]
      exact ⟨fun hc => List.mem_of_elem_eq_true hc, fun hm => List.elem_eq_true_of_mem hm⟩
    · exact ⟨fun hc => List.mem_of_elem_eq_true hc, fun hm => List.elem_eq_true_of_mem hm⟩
  · exact searchLoop_eq_contains ports p

/-- C10 witness: a sorted 11-entry slice goes through the binary-search
branch and both membership answers match the concrete evaluation. -/
theorem portin_membership_witness :
    PortIn [2, 3, 5, 7, 11, 13, 17, 19, 23, 29, 31] 17 = true ∧
    searchLoop [2, 3, 5, 7, 11, 13, 17, 19, 23, 29, 31] 4 0 10 =
      ([2, 3, 5, 7, 11, 13, 17, 19, 23, 29, 31] : List Int).contains 4 := by
  refine ⟨(portin_membership _ 17).1.mpr (by decide), ?_⟩
  have h := (portin_membership [2, 3, 5, 7, 11, 13, 17, 19, 23, 29, 31] 4).2 (by decide)
  simpa using h

/-! ### C8: vendor detection is deterministic and memoization-transparent -/

/-- C8: repeating `OptimizedDetect` with identical inputs returns the
identical (vendor, note) pair and leaves the cache exactly as the first
call left it — in any starting cache state — so any
`OptimizedCVEsForBrand` observation made afterwards is unchanged by the
second call. -/
theorem optimized_detect_memoization_transparent (forBrand : CVEDb)
    (cache : BrandCache) (h b r : String) :
    OptimizedDetect forBrand (OptimizedDetect forBrand cache h b r).2 h b r
      = OptimizedDetect forBrand cache h b r
    ∧ ∀ v, OptimizedCVEsForBrand forBrand
        (OptimizedDetect forBrand (OptimizedDetect forBrand cache h b r).2 h b r).2 v
      = OptimizedCVEsForBrand forBrand (OptimizedDetect forBrand cache h b r).2 v := by
  have hmain : OptimizedDetect forBrand (OptimizedDetect forBrand cache h b r).2 h b r
      = OptimizedDetect forBrand cache h b r := by
    simp only [OptimizedDetect]
    cases hl : assocLookup cache (goToLower (h ++ "|" ++ b ++ "|" ++ r)) with
    | some e => simp [hl]
    | none => simp [hl, assocLookup]
  exact ⟨hmain, fun v => by rw [hmain]⟩

/-! ### C2: structural verification failure falls back to discovery -/

/-- C2: when discovery succeeds with a non-empty map and the
verification engine errors structurally, `HybridScanner.Scan` returns
the unmodified discovery map and no error. -/
theorem hybrid_scan_verification_fallback
    (naabuDisc masscanDisc : List String → Except String PortMap)
    (naabuVerify : ScanOracle) (cache : LocalCache) (targets : List String)
    (d : PortMap) (e : String)
    (hne : targets ≠ [])
    (hdisc : discoveryPhase naabuDisc masscanDisc cache targets = Except.ok d)
    (hnonempty : d ≠ [])
    (hver : VerifyPorts naabuVerify d = Except.error e) :
    HybridScan naabuDisc masscanDisc naabuVerify cache targets = Except.ok d := by
  unfold HybridScan
  rw [if_neg (by simpa using hne)]
  rw [hdisc]
  simp only []
  rw [if_neg (by simpa using hnonempty)]
  rw [hver]

/-- C2 witness: a one-target batch, masscan discovery finding port 80,
and a verification engine that errors; the scan returns the discovery
map. -/
theorem hybrid_scan_verification_fallback_witness :
    HybridScan naabuDiscStub masscanStub naabuVerifyFailStub [] ["203.0.113.5"]
      = Except.ok [("203.0.113.5", [80])] :=
  hybrid_scan_verification_fallback naabuDiscStub masscanStub naabuVerifyFailStub
    [] ["203.0.113.5"] [("203.0.113.5", [80])] "naabu scan failed"
    (by simp) (by rfl) (by simp) (by rfl)

/-! ### C3: the engine choice is one whole-batch decision -/

theorem hasLocalhost_eq_any (cache : LocalCache) (targets : List String)
    (hwf : CacheWF cache) :
    (hasLocalhostTargets cache targets).1 = targets.any isLocalhostAddr := by
  induction targets generalizing cache with
  | nil => rfl
  | cons t rest ih =>
    simp only [hasLocalhostTargets, List.any_cons]
    cases hl : assocLookup cache t with
    | some b =>
      have hb : b = isLocalhostAddr t := hwf t b hl
      cases b with
      | true => simp [← hb]
      | false => simp [← hb, ih cache hwf]
    | none =>
      by_cases hloc : isLocalhostAddr t = true
      · simp [hloc]
      · have hloc' : isLocalhostAddr t = false := by simpa using hloc
        have hwf' : CacheWF ((t, isLocalhostAddr t) :: cache) := by
          intro t' b' h'
          simp only [assocLookup] at h'
          split at h'
          · next heq => cases h'; rw [heq]
          · exact hwf t' b' h'
        rw [hloc'] at hwf'
        simp [hloc', ih _ hwf']

/-- C3: under any program-reachable classification cache, the local
test of `hasLocalhostTargets` is exactly "some target equals 127.0.0.1
or localhost or has prefix 127.", and that single test dispatches the
entire batch to the naabu connect-scan path when true and the entire
batch to the masscan path when false. -/
theorem whole_batch_engine_dispatch
    (naabuDisc masscanDisc : List String → Except String PortMap)
    (cache : LocalCache) (targets : List String) (hwf : CacheWF cache) :
    (hasLocalhostTargets cache targets).1 = targets.any isLocalhostAddr
    ∧ (targets.any isLocalhostAddr = true →
        discoveryPhase naabuDisc masscanDisc cache targets = naabuDisc targets)
    ∧ (targets.any isLocalhostAddr = false →
        discoveryPhase naabuDisc masscanDisc cache targets = masscanDisc targets) := by
  have hmain := hasLocalhost_eq_any cache targets hwf
  refine ⟨hmain, fun hany => ?_, fun hany => ?_⟩
  · unfold discoveryPhase
    rw [hmain, hany]
    simp
  · unfold discoveryPhase
    rw [hmain, hany]
    simp

/-- C3 witness: the batch `["127.0.0.1", "203.0.113.5"]` (one local, one
external target) with an empty cache dispatches whole to the naabu
path. -/
theorem whole_batch_engine_dispatch_witness :
    (hasLocalhostTargets [] ["127.0.0.1", "203.0.113.5"]).1 = true ∧
    discoveryPhase naabuDiscStub masscanStub [] ["127.0.0.1", "203.0.113.5"]
      = naabuDiscStub ["127.0.0.1", "203.0.113.5"] := by
  have h := whole_batch_engine_dispatch naabuDiscStub masscanStub []
    ["127.0.0.1", "203.0.113.5"] (by intro t b hb; simp [assocLookup] at hb)
  refine ⟨?_, h.2.1 (by decide)⟩
  rw [h.1]
  decide

/-! ### C5: credential trials only after an authentication challenge -/

theorem tryCreds_trace_url (httpAuth : AuthOracle) (u : String) :
    ∀ creds, ∀ e ∈ (tryCredsOnURL httpAuth u creds).2, e.1 = u := by
  intro creds
  induction creds with
  | nil => simp [tryCredsOnURL]
  | cons c rest ih =>
    simp only [tryCredsOnURL]
    split
    · exact ih
    · split
      · intro e he
        simp only [List.mem_cons] at he
        rcases he with h1 | h2
        · rw [h1]
        · exact ih e h2
      · split
        · intro e he
          simp only [List.mem_singleton] at he
          rw [he]
        · intro e he
          simp only [List.mem_cons] at he
          rcases he with h1 | h2
          · rw [h1]
          · exact ih e h2

theorem tryURLs_trace_auth (http : HTTPOracle) (httpAuth : AuthOracle)
    (creds : List String) :
    ∀ urls u c, (u, c) ∈ (tryURLs http httpAuth creds urls).2 →
      requiresAuth http u = true := by
  intro urls
  induction urls with
  | nil => simp [tryURLs]
  | cons v rest ih =>
    intro u c hm
    simp only [tryURLs] at hm
    cases hv : http v with
    | none =>
      rw [hv] at hm
      exact ih u c hm
    | some resp =>
      rw [hv] at hm
      simp only [] at hm
      by_cases hskip : resp.wwwAuth = "" ∧ resp.status ≠ 401 ∧ resp.status ≠ 403
      · rw [if_pos hskip] at hm
        exact ih u c hm
      · rw [if_neg hskip] at hm
        have hauth : requiresAuth http v = true := by
          simp only [requiresAuth, hv]
          by_contra hfalse
          simp only [Bool.or_eq_true, decide_eq_true_eq, not_or] at hfalse
          push_neg at hfalse
          exact hskip ⟨hfalse.1.1, hfalse.1.2, hfalse.2⟩
        cases hfind : (tryCredsOnURL httpAuth v creds).1 with
        | some c0 =>
          rw [hfind] at hm
          have := tryCreds_trace_url httpAuth v creds (u, c) hm
          simp only at this
          rw [this]
          exact hauth
        | none =>
          rw [hfind] at hm
          rcases List.mem_append.mp hm with h1 | h2
          · have := tryCreds_trace_url httpAuth v creds (u, c) h1
            simp only at this
            rw [this]
            exact hauth
          · exact ih u c h2

/-- C5: a credential trial is issued against a URL only when the
unauthenticated probe of that URL signalled an authentication challenge
(401, 403 or a non-empty `WWW-Authenticate`); in both testers, a URL
that answers a plain 200 with no auth header receives no trials. -/
theorem credential_trials_require_auth_challenge (http : HTTPOracle)
    (httpAuth : AuthOracle) (credFile : Option (List String))
    (loginURLs creds : List String) (u c : String) :
    (c ∈ optimizedWorkerTrials http creds u → requiresAuth http u = true)
    ∧ ((u, c) ∈ (TryDefaultBasic http httpAuth credFile loginURLs).2 →
        requiresAuth http u = true)
    ∧ (http u = some ⟨200, ""⟩ →
        optimizedWorkerTrials http creds u = [] ∧
        (u, c) ∉ (TryDefaultBasic http httpAuth credFile loginURLs).2) := by
  have hopt : c ∈ optimizedWorkerTrials http creds u → requiresAuth http u = true := by
    unfold optimizedWorkerTrials
    split
    · next hr => exact fun _ => hr
    · intro hmem
      exact absurd hmem (List.not_mem_nil c)
  have hbasic : (u, c) ∈ (TryDefaultBasic http httpAuth credFile loginURLs).2 →
      requiresAuth http u = true := by
    unfold TryDefaultBasic
    cases loadCredentials credFile with
    | none =>
      intro hmem
      exact absurd hmem (List.not_mem_nil _)
    | some creds' => exact tryURLs_trace_auth http httpAuth creds' loginURLs u c
  refine ⟨hopt, hbasic, fun h200 => ?_⟩
  have hra : requiresAuth http u = false := by
    simp [requiresAuth, h200]
  constructor
  · unfold optimizedWorkerTrials
    rw [hra]
    simp
  · intro hmem
    rw [hbasic hmem] at hra
    exact Bool.true_eq_false.mp hra

/-- C5 witness: with a 401-answering URL the recorded trial implies the
challenge; with a plain-200 URL no trial exists at all. -/
theorem credential_trials_require_auth_challenge_witness :
    requiresAuth httpChallengeStub "http://203.0.113.9/login" = true ∧
    (optimizedWorkerTrials httpPlain200Stub ["admin:admin"] "http://203.0.113.9/login" = [] ∧
      ("http://203.0.113.9/login", "admin:admin") ∉
        (TryDefaultBasic httpPlain200Stub authAdminStub (some ["admin:admin"])
          ["http://203.0.113.9/login"]).2) := by
  constructor
  · exact (credential_trials_require_auth_challenge httpChallengeStub authAdminStub
      (some ["admin:admin"]) ["http://203.0.113.9/login"] ["admin:admin"]
      "http://203.0.113.9/login" "admin:admin").2.1 (by decide)
  · exact (credential_trials_require_auth_challenge httpPlain200Stub authAdminStub
      (some ["admin:admin"]) ["http://203.0.113.9/login"] ["admin:admin"]
      "http://203.0.113.9/login" "admin:admin").2.2 (by rfl)

/-! ### C6: the RTSP probe stops at the first 200 and else reports empty -/

theorem probeRTSP_no_success (conn : RTSPOracle) :
    ∀ ports : List Int, (∀ p ∈ ports, rtspSuccess conn p = false) →
      ProbeRTSP conn ports = ⟨false, "", ""⟩ := by
  intro ports
  induction ports with
  | nil => intro _; rfl
  | cons p rest ih =>
    intro hfail
    have hp := hfail p (List.mem_cons_self _ _)
    simp only [ProbeRTSP]
    cases hc : conn p with
    | none => exact ih fun q hq => hfail q (List.mem_cons_of_mem _ hq)
    | some sl =>
      obtain ⟨status, lines⟩ := sl
      simp only [rtspSuccess, hc] at hp
      simp only []
      rw [if_neg (by simp [hp])]
      exact ih fun q hq => hfail q (List.mem_cons_of_mem _ hq)

theorem probeRTSP_success_at (conn : RTSPOracle) :
    ∀ (pre : List Int) (p : Int) (post : List Int) (status : String)
      (lines : List String),
      (∀ q ∈ pre, rtspSuccess conn q = false) →
      conn p = some (status, lines) →
      goHasPrefix status "RTSP/1.0 200" = true →
      ProbeRTSP conn (pre ++ p :: post) =
        ⟨true, (readRTSPHeaders "" "" lines).1, (readRTSPHeaders "" "" lines).2⟩ := by
  intro pre
  induction pre with
  | nil =>
    intro p post status lines _ hc hpre
    simp only [List.nil_append, ProbeRTSP, hc]
    rw [if_pos hpre]
  | cons q pre' ih =>
    intro p post status lines hfail hc hpre
    have hq := hfail q (List.mem_cons_self _ _)
    simp only [List.cons_append, ProbeRTSP]
    cases hcq : conn q with
    | none => exact ih p post status lines (fun x hx => hfail x (List.mem_cons_of_mem _ hx)) hc hpre
    | some sl =>
      obtain ⟨st, ls⟩ := sl
      simp only [rtspSuccess, hcq] at hq
      simp only []
      rw [if_neg (by simp [hq])]
      exact ih p post status lines (fun x hx => hfail x (List.mem_cons_of_mem _ hx)) hc hpre

/-- C6: if no probed port answers a status line starting `RTSP/1.0 200`,
the probe returns `Any = false, Server = "", Public = ""`; and at the
first port that does, it stops and fills Server/Public solely from that
response's header lines. -/
theorem probe_rtsp_first_success (conn : RTSPOracle) (ports : List Int) :
    ((∀ p ∈ ports, rtspSuccess conn p = false) →
      ProbeRTSP conn ports = ⟨false, "", ""⟩)
    ∧ (∀ (pre : List Int) (p : Int) (post : List Int) (status : String)
        (lines : List String),
        ports = pre ++ p :: post →
        (∀ q ∈ pre, rtspSuccess conn q = false) →
        conn p = some (status, lines) →
        goHasPrefix status "RTSP/1.0 200" = true →
        ProbeRTSP conn ports =
          ⟨true, (readRTSPHeaders "" "" lines).1, (readRTSPHeaders "" "" lines).2⟩) := by
  refine ⟨probeRTSP_no_success conn ports, ?_⟩
  intro pre p post status lines hsplit hfail hc hpre
  rw [hsplit]
  exact probeRTSP_success_at conn pre p post status lines hfail hc hpre

/-- C6 witness: a port answering `RTSP/1.0 404` yields the empty record
(end-to-end scenario 2), and a port answering `RTSP/1.0 200` yields the
record parsed from that response's headers. -/
theorem probe_rtsp_first_success_witness :
    ProbeRTSP rtspConn404 [554] = ⟨false, "", ""⟩ ∧
    ProbeRTSP rtspConn200 [554] =
      ⟨true,
        (readRTSPHeaders "" ""
          ["Server: Hipcam RealServer/V1.0\r\n", "Public: OPTIONS, DESCRIBE, PLAY\r\n", "\r\n"]).1,
        (readRTSPHeaders "" ""
          ["Server: Hipcam RealServer/V1.0\r\n", "Public: OPTIONS, DESCRIBE, PLAY\r\n", "\r\n"]).2⟩ := by
  constructor
  · exact (probe_rtsp_first_success rtspConn404 [554]).1 (by decide)
  · exact (probe_rtsp_first_success rtspConn200 [554]).2 [] 554 []
      "RTSP/1.0 200 OK\r\n"
      ["Server: Hipcam RealServer/V1.0\r\n", "Public: OPTIONS, DESCRIBE, PLAY\r\n", "\r\n"]
      (by rfl) (by simp) (by rfl) (by decide)

/-! ### C1: what verification may report

The TCP verifier is a per-host filter and can only shrink each host's
list.  The naabu `VerifyPorts`, however, re-scans *every* key host
against the *union* of all discovered ports, so under the engine's own
"open ports only" contract it can report, for a host, a port that
discovery found only on a different host. -/

theorem lookupPorts_cons (e : String × List Int) (m : PortMap) (h : String) :
    lookupPorts (e :: m) h = if e.1 = h then e.2 else lookupPorts m h := by
  simp only [lookupPorts, assocLookup]
  split <;> rfl

theorem tcpVerifyMap_cons (tryO : String → Bool) (e : String × List Int) (m : PortMap) :
    TCPVerifyMap tryO (e :: m) =
      if (TCPVerify tryO e.1 e.2).length > 0
      then (e.1, TCPVerify tryO e.1 e.2) :: TCPVerifyMap tryO m
      else TCPVerifyMap tryO m := rfl

theorem tcpVerify_subset (tryO : String → Bool) (host : String) (ports : List Int)
    (p : Int) (hp : p ∈ TCPVerify tryO host ports) : p ∈ ports := by
  unfold TCPVerify at hp
  have := (List.perm_insertionSort (· ≤ ·) _).mem_iff.mp hp
  exact (List.mem_filter.mp this).1

theorem keys_tcpVerifyMap_subset (tryO : String → Bool) :
    ∀ (m : PortMap) (h : String), h ∈ keys (TCPVerifyMap tryO m) → h ∈ keys m := by
  intro m
  induction m with
  | nil => intro h hh; simpa [TCPVerifyMap, keys] using hh
  | cons e m' ih =>
    intro h hh
    rw [tcpVerifyMap_cons] at hh
    simp only [keys, List.map_cons, List.mem_cons]
    split at hh
    · simp only [keys, List.map_cons, List.mem_cons] at hh
      rcases hh with h1 | h2
      · exact Or.inl h1
      · exact Or.inr (ih h h2)
    · exact Or.inr (ih h hh)

theorem lookupPorts_eq_nil_of_not_mem_keys :
    ∀ (m : PortMap) (h : String), h ∉ keys m → lookupPorts m h = [] := by
  intro m
  induction m with
  | nil => intro h _; rfl
  | cons e m' ih =>
    intro h hh
    simp only [keys, List.map_cons, List.mem_cons, not_or] at hh
    rw [lookupPorts_cons, if_neg (fun hc => hh.1 hc.symm)]
    exact ih h (by simpa [keys] using hh.2)

theorem tcpVerifyMap_subset (tryO : String → Bool) :
    ∀ (m : PortMap), (keys m).Nodup →
      ∀ h p, p ∈ lookupPorts (TCPVerifyMap tryO m) h → p ∈ lookupPorts m h := by
  intro m
  induction m with
  | nil => intro _ h p hp; simpa [TCPVerifyMap, lookupPorts, assocLookup] using hp
  | cons e m' ih =>
    intro hnd h p hp
    have hnd2 : (e.1 :: keys m').Nodup := by
      simpa only [keys, List.map_cons] using hnd
    have hnd' : (keys m').Nodup := (List.nodup_cons.mp hnd2).2
    rw [tcpVerifyMap_cons] at hp
    rw [lookupPorts_cons]
    by_cases heq : e.1 = h
    · rw [if_pos heq]
      split at hp
      · rw [lookupPorts_cons, if_pos heq] at hp
        exact tcpVerify_subset tryO e.1 e.2 p hp
      · exfalso
        have hnotin : h ∉ keys m' := by
          rw [← heq]
          exact (List.nodup_cons.mp hnd2).1
        have hnotin' : h ∉ keys (TCPVerifyMap tryO m') :=
          fun hc => hnotin (keys_tcpVerifyMap_subset tryO m' h hc)
        rw [lookupPorts_eq_nil_of_not_mem_keys _ h hnotin'] at hp
        exact List.not_mem_nil p hp
    · rw [if_neg heq]
      split at hp
      · rw [lookupPorts_cons, if_neg heq] at hp
        exact ih hnd' h p hp
      · exact ih hnd' h p hp

theorem verifyPorts_provenance (scan : ScanOracle) (hvalid : ScanOracleValid scan)
    (d out : PortMap) (hok : VerifyPorts scan d = Except.ok out) :
    ∀ h p, p ∈ lookupPorts out h → h ∈ keys d ∧ p ∈ unionPorts d := by
  unfold VerifyPorts at hok
  split at hok
  · next hempty =>
    cases hok
    intro h p hp
    have hd : d = [] := by simpa using hempty
    rw [hd] at hp
    simp [lookupPorts, assocLookup] at hp
  · intro h p hp
    exact hvalid _ _ _ hok h p hp

theorem scanExample_valid : ScanOracleValid scanExample := by
  intro ts ps m hm h p hp
  unfold scanExample at hm
  split at hm
  · next hcond =>
    cases hm
    rw [lookupPorts_cons] at hp
    split at hp
    · next heq =>
      simp only [lookupPorts, assocLookup] at hp
      simp only [List.mem_singleton] at hp
      obtain ⟨hts, hps⟩ := Bool.and_eq_true_iff.mp hcond
      subst hp
      rw [← heq]
      exact ⟨List.mem_of_elem_eq_true hts, List.mem_of_elem_eq_true hps⟩
    · simp [lookupPorts, assocLookup] at hp
  · cases hm
    simp [lookupPorts, assocLookup] at hp

/-- C1 counterexample: a contract-obeying verification engine, applied
by `VerifyPorts` to a discovery map holding port 80 on 198.51.100.7 and
port 554 on 203.0.113.5, reports port 554 for 198.51.100.7 — a
(host, port) pair discovery did not report for that host — because
`VerifyPorts` probes every host against the union of all discovered
ports. -/
theorem naabu_verify_adds_cross_host_port :
    ScanOracleValid scanExample ∧
    VerifyPorts scanExample discoveredExample = Except.ok [("198.51.100.7", [554])] ∧
    554 ∈ lookupPorts [("198.51.100.7", [554])] "198.51.100.7" ∧
    554 ∉ lookupPorts discoveredExample "198.51.100.7" :=
  ⟨scanExample_valid, rfl, by decide, by decide⟩

/-- C1 amended: the TCP verifier (`TCPVerifier.VerifyMap`) never adds a
port to a host's set; the naabu verification pass (`VerifyPorts`)
guarantees only the weaker provenance that every reported host was a
discovery key and every reported port was discovered on *some* host. -/
theorem verifier_port_provenance :
    (∀ (tryO : String → Bool) (m : PortMap), (keys m).Nodup →
      ∀ h p, p ∈ lookupPorts (TCPVerifyMap tryO m) h → p ∈ lookupPorts m h)
    ∧ (∀ (scan : ScanOracle), ScanOracleValid scan →
      ∀ d out, VerifyPorts scan d = Except.ok out →
        ∀ h p, p ∈ lookupPorts out h → h ∈ keys d ∧ p ∈ unionPorts d) :=
  ⟨tcpVerifyMap_subset, fun scan hv d out hok => verifyPorts_provenance scan hv d out hok⟩

/-- C1 witness: both provenance statements applied at concrete inputs. -/
theorem verifier_port_provenance_witness :
    (7 : Int) ∈ lookupPorts [("198.51.100.7", [7])] "198.51.100.7" ∧
    ("198.51.100.7" ∈ keys discoveredExample ∧
      (554 : Int) ∈ unionPorts discoveredExample) := by
  constructor
  · exact verifier_port_provenance.1 (fun _ => true) [("198.51.100.7", [7])]
      (by decide) "198.51.100.7" 7 (by decide)
  · exact verifier_port_provenance.2 scanExample scanExample_valid
      discoveredExample [("198.51.100.7", [554])] rfl "198.51.100.7" 554 (by decide)

/-! ### C7: detection stage order and the empty-result condition -/

theorem normalize_ne_empty (s : String) : normalizeRtspBrandFromServer s ≠ "" := by
  unfold normalizeRtspBrandFromServer
  dsimp only
  split_ifs <;> first | assumption | decide

theorem firstBrandMatch_ne_empty (lh lb lr : String) (name : String)
    (hf : firstBrandMatch lh lb lr = some name) : name ≠ "" := by
  unfold firstBrandMatch at hf
  cases hfind : brandMatchers.find? (fun e => e.2 lh lb lr) with
  | none => rw [hfind] at hf; cases hf
  | some e =>
    rw [hfind] at hf
    simp only [Option.map_some'] at hf
    have hmem : e ∈ brandMatchers := List.mem_of_find?_eq_some hfind
    have hmap : e.1 ∈ brandMatchers.map (·.1) := List.mem_map_of_mem _ hmem
    have heq : brandMatchers.map (·.1) =
        ["Hikvision", "Dahua", "Axis", "Sony", "Bosch", "Samsung", "Panasonic",
          "Vivotek", "CP Plus"] := rfl
    rw [heq] at hmap
    have hEq : e.1 = name := Option.some.inj hf
    rw [← hEq]
    intro hc
    rw [hc] at hmap
    revert hmap
    decide

/-- C7 amended: vendor keyword matching (in the fixed priority order)
runs first, then RTSP-banner normalization, then the generic fallback;
the detection result is empty exactly when no vendor matcher matches,
no generic keyword matches, and the RTSP banner is empty or normalizes
to the generic class `"RTSP"` — a non-empty RTSP banner matching no
normalization rule is returned verbatim as the vendor, not as empty. -/
theorem detect_stage_order (h b r : String) :
    (detectBrand h b r = ("", "") ↔
      firstBrandMatch (goToLower h) (goToLower b) (goToLower r) = none ∧
      (r = "" ∨ normalizeRtspBrandFromServer r = "RTSP") ∧
      (containsAny (goToLower h) brandKeysGeneric ||
        containsAny (goToLower b) brandKeysGeneric ||
        containsAny (goToLower r) brandKeysGeneric) = false)
    ∧ (∀ name, firstBrandMatch (goToLower h) (goToLower b) (goToLower r) = some name →
        detectBrand h b r = (name, ""))
    ∧ (firstBrandMatch (goToLower h) (goToLower b) (goToLower r) = none →
        r ≠ "" → normalizeRtspBrandFromServer r ≠ "RTSP" →
        detectBrand h b r = (normalizeRtspBrandFromServer r, "RTSP server: " ++ r)) := by
  refine ⟨?_, ?_, ?_⟩
  · cases hf : firstBrandMatch (goToLower h) (goToLower b) (goToLower r) with
    | some name =>
      have hne := firstBrandMatch_ne_empty _ _ _ name hf
      constructor
      · intro hd
        have hd' : detectBrand h b r = (name, "") := by
          simp only [detectBrand, hf]
        rw [hd] at hd'
        exact absurd (congrArg Prod.fst hd').symm hne
      · rintro ⟨hnone, -, -⟩
        exact absurd hnone (by simp)
    | none =>
      simp only [detectBrand, hf]
      by_cases hr : r ≠ "" ∧ normalizeRtspBrandFromServer r ≠ "RTSP" ∧
          normalizeRtspBrandFromServer r ≠ ""
      · rw [if_pos hr]
        constructor
        · intro hd
          exact absurd (congrArg Prod.fst hd) hr.2.2
        · rintro ⟨-, hskip, -⟩
          rcases hskip with h1 | h2
          · exact absurd h1 hr.1
          · exact absurd h2 hr.2.1
      · rw [if_neg hr]
        have hskip : r = "" ∨ normalizeRtspBrandFromServer r = "RTSP" := by
          push_neg at hr
          by_cases hre : r = ""
          · exact Or.inl hre
          · by_cases hnR : normalizeRtspBrandFromServer r = "RTSP"
            · exact Or.inr hnR
            · exact absurd (hr hre hnR) (normalize_ne_empty r)
        split_ifs with hg
        · constructor
          · intro hd
            have : "Unknown cam" = "" := congrArg Prod.fst hd
            exact absurd this (by decide)
          · rintro ⟨-, -, hgf⟩
            rw [hg] at hgf
            cases hgf
        · constructor
          · intro _
            exact ⟨trivial, hskip, by simpa using hg⟩
          · intro _
            rfl
  · intro name hf
    simp only [detectBrand, hf]
  · intro hf hr hnR
    simp only [detectBrand, hf]
    rw [if_pos ⟨hr, hnR, normalize_ne_empty r⟩]

/-- C7 counterexample: the input (serverBanner `""`, body `""`, RTSP
banner `"foobar"`) matches no vendor keyword, no RTSP normalization
rule and no generic camera keyword, yet detection returns the banner
verbatim as the vendor instead of the empty result. -/
theorem detect_nonempty_on_unrecognized_rtsp_banner :
    firstBrandMatch (goToLower "") (goToLower "") (goToLower "foobar") = none ∧
    normalizeRtspBrandFromServer "foobar" = "foobar" ∧
    (containsAny (goToLower "") brandKeysGeneric ||
      containsAny (goToLower "") brandKeysGeneric ||
      containsAny (goToLower "foobar") brandKeysGeneric) = false ∧
    detectBrand "" "" "foobar" = ("foobar", "RTSP server: foobar") ∧
    detectBrand "" "" "foobar" ≠ ("", "") :=
  ⟨by decide, by decide, by decide, by decide, by decide⟩

/-- C7 witness: each stage of the amended theorem applied at a concrete
input. -/
theorem detect_stage_order_witness :
    detectBrand "HiKVISION-Webs" "" "" = ("Hikvision", "") ∧
    detectBrand "" "" "VLC media player" = ("VLC media player", "RTSP server: VLC media player") ∧
    detectBrand "" "" "" = ("", "") := by
  refine ⟨?_, ?_, ?_⟩
  · exact (detect_stage_order "HiKVISION-Webs" "" "").2.1 "Hikvision" (by decide)
  · exact (detect_stage_order "" "" "VLC media player").2.2 (by decide) (by decide) (by decide)
  · exact (detect_stage_order "" "" "").1.mpr ⟨by decide, Or.inl rfl, by decide⟩

/-! ### C4: the optimized credential tester does not wait for its workers -/

/-- C4 (code defect): against a URL demanding auth (401) and a
credential list containing a credential that answers 200 — so a worker
can deliver a success, as `deliverable` certifies — `OptimizedBruteForce`
still returns `""` under the schedule in which its final non-blocking
`select` executes before any worker has delivered (`delivered = none`,
legal because nothing synchronizes the select with the workers, despite
the comment "Wait for first result or completion" above it). -/
theorem optimized_bruteforce_misses_valid_credential :
    ScheduleOK httpChallengeStub authAdminStub ["http://203.0.113.9/login"]
      ["admin:admin"] none ∧
    deliverable httpChallengeStub authAdminStub ["http://203.0.113.9/login"]
      ["admin:admin"] "admin:admin" = true ∧
    requiresAuth httpChallengeStub "http://203.0.113.9/login" = true ∧
    testCredential authAdminStub "http://203.0.113.9/login" "admin:admin" = true ∧
    OptimizedBruteForce httpChallengeStub authAdminStub (some ["admin:admin"])
      ["http://203.0.113.9/login"] none = "" :=
  ⟨trivial, by decide, by decide, by decide, rfl⟩
